import Mathlib

/-!
Shallow embedding of the aggregation engine of the RepoSearch frontend:
the API client guards (src/lib/api.ts), the contributor pagination loop and
page-level fetch orchestration (repository detail page), the impact
aggregator (UserImpact), the timeline bucketizer (CommitTimeline) and the
language normalizer (LanguageDistribution), together with theorems settling
the frozen claims about them.

Conventions of the embedding:
* TypeScript numbers standing for identifiers are `Int` (JS truthiness of a
  number is `≠ 0`); byte counts and lengths are `Nat`.
* ISO timestamp strings are carried as their epoch-millisecond value
  (`Nat`); truncation to a UTC calendar day (`toISOString().split("T")[0]`)
  is division by 86400000, and lexicographic order on the YYYY-MM-DD keys
  coincides with numeric order on these day indices.
* A JS `Map` is an insertion-ordered association list; `Array.prototype.sort`
  (stable per ECMAScript) is a stable insertion sort.
* A thrown `ApiError` is the `Except.error` branch; `Except.ok` carries the
  HTTP request that would be issued, so a function returning `.error` issues
  no request.
* Exact rationals stand for JS floating point percentages; the `NaN`
  produced by `0 / 0` is encoded as `none`.
-/

namespace RepoSearch

/-- The nested `commit.author` / `commit.committer` signature of the GitHub
commit payload (src/types/github.ts): name, email, and the timestamp as
epoch milliseconds. -/
structure GitSignature where
  name : String
  email : String
  date : Nat
deriving DecidableEq

/-- The resolved GitHub account attached to a commit or contributor row. -/
structure GitUser where
  login : String
  id : Int
  avatar_url : String
  html_url : String
deriving DecidableEq

/-- A commit as the data source delivers it: `commitAuthor`/`commitCommitter`
embed the TS `commit.author`/`commit.committer` objects, `author`/`committer`
the nullable resolved accounts. -/
structure Commit where
  sha : String
  commitAuthor : GitSignature
  commitCommitter : GitSignature
  author : Option GitUser
  committer : Option GitUser
deriving DecidableEq

/-- One row of a contributor listing (src/types/github.ts `Contributor`). -/
structure Contributor where
  login : String
  id : Int
  avatar_url : String
  html_url : String
  contributions : Nat
deriving DecidableEq

/-- Repository details; only the fields the aggregation engine reads are
carried (`id`, `full_name`). -/
structure RepositoryDetails where
  id : Int
  full_name : String
deriving DecidableEq

/-! ## Stable sorting

`Array.prototype.sort` is stable, and every comparator in the sources is of
the shape `(a, b) => key(b) - key(a)` or ascending `localeCompare`; both are
total preorders given by a key. `insertBy`/`sortBy` is a stable insertion
sort: an element is inserted before the first element `y` with `le x y`,
so with `le` chosen reflexive on ties an earlier element stays before a
tied later one. -/

def insertBy (le : α → α → Bool) (x : α) : List α → List α
  | [] => [x]
  | y :: ys => if le x y then x :: y :: ys else y :: insertBy le x ys

def sortBy (le : α → α → Bool) : List α → List α
  | [] => []
  | x :: xs => insertBy le x (sortBy le xs)

theorem insertBy_perm (le : α → α → Bool) (x : α) (l : List α) :
    List.Perm (insertBy le x l) (x :: l) := by
  induction l with
  | nil => simp [insertBy]
  | cons y ys ih =>
    simp only [insertBy]
    split
    · exact List.Perm.refl _
    · exact ((ih.cons y).trans (List.Perm.swap x y ys))

theorem sortBy_perm (le : α → α → Bool) (l : List α) :
    List.Perm (sortBy le l) l := by
  induction l with
  | nil => simp [sortBy]
  | cons x xs ih => exact (insertBy_perm le x (sortBy le xs)).trans (ih.cons x)

theorem mem_sortBy (le : α → α → Bool) (l : List α) (a : α) :
    a ∈ sortBy le l ↔ a ∈ l :=
  (sortBy_perm le l).mem_iff

theorem insertBy_pairwise (le : α → α → Bool)
    (htot : ∀ a b, le a b = false → le b a = true)
    (htrans : ∀ a b c, le a b = true → le b c = true → le a c = true)
    (x : α) (l : List α) (h : l.Pairwise fun a b => le a b = true) :
    (insertBy le x l).Pairwise (fun a b => le a b = true) := by
  induction l with
  | nil => simp [insertBy]
  | cons y ys ih =>
    rcases List.pairwise_cons.mp h with ⟨hy, hys⟩
    simp only [insertBy]
    split
    · rename_i hxy
      refine List.pairwise_cons.mpr ⟨?_, h⟩
      intro z hz
      rcases List.mem_cons.mp hz with rfl | hz
      · exact hxy
      · exact htrans x y z hxy (hy z hz)
    · rename_i hxy
      refine List.pairwise_cons.mpr ⟨?_, ih hys⟩
      intro z hz
      rcases List.mem_cons.mp ((insertBy_perm le x ys).mem_iff.mp hz) with heq | hz
      · rw [heq]
        exact htot x y (Bool.eq_false_iff.mpr hxy)
      · exact hy z hz

theorem sortBy_pairwise (le : α → α → Bool)
    (htot : ∀ a b, le a b = false → le b a = true)
    (htrans : ∀ a b c, le a b = true → le b c = true → le a c = true)
    (l : List α) :
    (sortBy le l).Pairwise (fun a b => le a b = true) := by
  induction l with
  | nil => simp [sortBy]
  | cons x xs ih => exact insertBy_pairwise le htot htrans x (sortBy le xs) ih

theorem filter_insertBy_pos (le : α → α → Bool) (p : α → Bool) (x : α)
    (hx : p x = true) (hskip : ∀ y, le x y = false → p y = false)
    (l : List α) : (insertBy le x l).filter p = x :: l.filter p := by
  induction l with
  | nil => simp [insertBy, hx]
  | cons y ys ih =>
    simp only [insertBy]
    split
    · simp [List.filter_cons, hx]
    · rename_i hxy
      have hpy : p y = false := hskip y (Bool.eq_false_iff.mpr hxy)
      simp [List.filter_cons, hpy, ih]

theorem filter_insertBy_neg (le : α → α → Bool) (p : α → Bool) (x : α)
    (hx : p x = false) (l : List α) :
    (insertBy le x l).filter p = l.filter p := by
  induction l with
  | nil => simp [insertBy, hx]
  | cons y ys ih =>
    simp only [insertBy]
    split
    · simp [List.filter_cons, hx]
    · simp [List.filter_cons, ih]

/-- Stability of `sortBy`: a filter that selects a "tie class" (anything a
skipped-over element can never satisfy) reads the same subsequence before
and after sorting, i.e. tied elements keep their input order. -/
theorem filter_sortBy (le : α → α → Bool) (p : α → Bool)
    (hcompat : ∀ x y, p x = true → le x y = false → p y = false)
    (l : List α) : (sortBy le l).filter p = l.filter p := by
  induction l with
  | nil => simp [sortBy]
  | cons x xs ih =>
    simp only [sortBy]
    cases hp : p x with
    | true =>
      rw [filter_insertBy_pos le p x hp (fun y h => hcompat x y hp h),
        List.filter_cons, ih]
      simp [hp]
    | false =>
      rw [filter_insertBy_neg le p x hp, List.filter_cons, ih]
      simp [hp]

/-! ## JS `Map` as an insertion-ordered association list

`map.get`/`map.set` on a JS `Map` keeps iteration in insertion order:
updating an existing key keeps its slot, a fresh key is appended at the
end. `mapBump k f i` performs the idiom `existing ? mutate : set fresh`
with `f` the mutation and `i` the fresh value. -/

def mapBump [DecidableEq κ] (k : κ) (f : β → β) (i : β) :
    List (κ × β) → List (κ × β)
  | [] => [(k, i)]
  | (k₀, v) :: rest =>
    if k₀ = k then (k₀, f v) :: rest else (k₀, v) :: mapBump k f i rest

/-- One fold step over a JS `Map`: resolve a key from the element; on a
resolvable key bump the map, otherwise leave it unchanged. -/
def jsMapStep [DecidableEq κ] (sel : γ → Option κ) (f : γ → β → β) (g : γ → β)
    (m : List (κ × β)) (c : γ) : List (κ × β) :=
  match sel c with
  | some k => mapBump k (f c) (g c) m
  | none => m

def jsMapFold [DecidableEq κ] (sel : γ → Option κ) (f : γ → β → β) (g : γ → β)
    (cs : List γ) : List (κ × β) :=
  cs.foldl (jsMapStep sel f g) []

/-- The key sequence of a list in first-seen order, the iteration order a JS
`Map` built over it exposes. -/
def firstSeen [DecidableEq α] (l : List α) : List α :=
  l.foldl (fun acc k => if k ∈ acc then acc else acc ++ [k]) []

theorem mapBump_keys [DecidableEq κ] (k : κ) (f : β → β) (i : β)
    (m : List (κ × β)) :
    (mapBump k f i m).map Prod.fst =
      if k ∈ m.map Prod.fst then m.map Prod.fst else m.map Prod.fst ++ [k] := by
  induction m with
  | nil => simp [mapBump]
  | cons kv rest ih =>
    obtain ⟨k₀, v⟩ := kv
    simp only [mapBump]
    by_cases hk : k₀ = k
    · subst hk
      simp
    · simp only [if_neg hk, List.map_cons, ih]
      have hne : ¬(k = k₀) := fun h => hk h.symm
      by_cases hmem : k ∈ rest.map Prod.fst
      · simp [hmem, List.mem_cons, hne]
      · simp [hmem, List.mem_cons, hne]

theorem foldl_jsMapStep_keys [DecidableEq κ] (sel : γ → Option κ)
    (f : γ → β → β) (g : γ → β) (cs : List γ) :
    ∀ m : List (κ × β),
      (cs.foldl (jsMapStep sel f g) m).map Prod.fst =
        (cs.filterMap sel).foldl
          (fun acc k => if k ∈ acc then acc else acc ++ [k]) (m.map Prod.fst) := by
  induction cs with
  | nil => intro m; simp
  | cons c cs ih =>
    intro m
    cases hsel : sel c with
    | none => simp [List.foldl_cons, jsMapStep, hsel, ih]
    | some k =>
      simp only [List.foldl_cons, jsMapStep, hsel, List.filterMap_cons, ih,
        mapBump_keys]

theorem jsMapFold_keys [DecidableEq κ] (sel : γ → Option κ)
    (f : γ → β → β) (g : γ → β) (cs : List γ) :
    (jsMapFold sel f g cs).map Prod.fst = firstSeen (cs.filterMap sel) := by
  simpa using foldl_jsMapStep_keys sel f g cs []

theorem mem_firstSeen_foldl [DecidableEq α] (ks : List α) :
    ∀ (acc : List α) (a : α),
      a ∈ ks.foldl (fun acc k => if k ∈ acc then acc else acc ++ [k]) acc ↔
        a ∈ acc ∨ a ∈ ks := by
  induction ks with
  | nil => intro acc a; simp
  | cons k ks ih =>
    intro acc a
    simp only [List.foldl_cons, ih, List.mem_cons]
    by_cases hk : k ∈ acc
    · simp only [if_pos hk]
      constructor
      · rintro (h | h)
        · exact Or.inl h
        · exact Or.inr (Or.inr h)
      · rintro (h | h | h)
        · exact Or.inl h
        · exact Or.inl (h ▸ hk)
        · exact Or.inr h
    · simp only [if_neg hk, List.mem_append, List.mem_singleton]
      tauto

theorem mem_firstSeen [DecidableEq α] (l : List α) (a : α) :
    a ∈ firstSeen l ↔ a ∈ l := by
  simpa [firstSeen] using mem_firstSeen_foldl l [] a

theorem nodup_firstSeen_foldl [DecidableEq α] (ks : List α) :
    ∀ acc : List α, acc.Nodup →
      (ks.foldl (fun acc k => if k ∈ acc then acc else acc ++ [k]) acc).Nodup := by
  induction ks with
  | nil => intro acc h; simpa using h
  | cons k ks ih =>
    intro acc h
    simp only [List.foldl_cons]
    by_cases hk : k ∈ acc
    · simpa [if_pos hk] using ih acc h
    · refine ih _ ?_
      rw [if_neg hk, ← List.concat_eq_append]
      exact h.concat hk

theorem nodup_firstSeen [DecidableEq α] (l : List α) : (firstSeen l).Nodup :=
  nodup_firstSeen_foldl l [] List.nodup_nil

theorem mapBump_measure [DecidableEq κ] (k : κ) (f : β → β) (i : β)
    (μ : β → ℕ) (hf : ∀ v, μ (f v) = μ v + 1) (hi : μ i = 1)
    (m : List (κ × β)) :
    ((mapBump k f i m).map fun kv => μ kv.2).sum =
      ((m.map fun kv => μ kv.2).sum) + 1 := by
  induction m with
  | nil => simp [mapBump, hi]
  | cons kv rest ih =>
    obtain ⟨k₀, v⟩ := kv
    simp only [mapBump]
    by_cases hk : k₀ = k
    · simp [if_pos hk, hf]
      omega
    · simp [if_neg hk, ih]
      omega

theorem foldl_jsMapStep_measure [DecidableEq κ] (sel : γ → Option κ)
    (f : γ → β → β) (g : γ → β) (μ : β → ℕ)
    (hf : ∀ c v, μ (f c v) = μ v + 1) (hg : ∀ c, μ (g c) = 1) (cs : List γ) :
    ∀ m : List (κ × β),
      ((cs.foldl (jsMapStep sel f g) m).map fun kv => μ kv.2).sum =
        ((m.map fun kv => μ kv.2).sum) + (cs.filterMap sel).length := by
  induction cs with
  | nil => intro m; simp
  | cons c cs ih =>
    intro m
    cases hsel : sel c with
    | none => simp [List.foldl_cons, jsMapStep, hsel, ih]
    | some k =>
      simp only [List.foldl_cons, jsMapStep, hsel, List.filterMap_cons, ih,
        mapBump_measure k (f c) (g c) μ (hf c) (hg c), List.length_cons]
      omega

theorem jsMapFold_measure [DecidableEq κ] (sel : γ → Option κ)
    (f : γ → β → β) (g : γ → β) (μ : β → ℕ)
    (hf : ∀ c v, μ (f c v) = μ v + 1) (hg : ∀ c, μ (g c) = 1) (cs : List γ) :
    ((jsMapFold sel f g cs).map fun kv => μ kv.2).sum =
      (cs.filterMap sel).length := by
  simpa using foldl_jsMapStep_measure sel f g μ hf hg cs []

theorem mapBump_values [DecidableEq κ] (k : κ) (f : β → β) (i : β)
    (P : β → Prop) (hf : ∀ v, P v → P (f v)) (hi : P i)
    (m : List (κ × β)) (hm : ∀ kv ∈ m, P kv.2) :
    ∀ kv ∈ mapBump k f i m, P kv.2 := by
  induction m with
  | nil =>
    intro kv hkv
    simp only [mapBump, List.mem_singleton] at hkv
    simpa [hkv] using hi
  | cons kv₀ rest ih =>
    obtain ⟨k₀, v⟩ := kv₀
    intro kv hkv
    simp only [mapBump] at hkv
    by_cases hk : k₀ = k
    · rw [if_pos hk] at hkv
      rcases List.mem_cons.mp hkv with heq | hkv
      · rw [heq]
        exact hf v (hm ⟨k₀, v⟩ (List.mem_cons_self _ _))
      · exact hm kv (List.mem_cons_of_mem _ hkv)
    · rw [if_neg hk] at hkv
      rcases List.mem_cons.mp hkv with heq | hkv
      · rw [heq]
        exact hm ⟨k₀, v⟩ (List.mem_cons_self _ _)
      · exact ih (fun kv h => hm kv (List.mem_cons_of_mem _ h)) kv hkv

theorem jsMapFold_values [DecidableEq κ] (sel : γ → Option κ)
    (f : γ → β → β) (g : γ → β) (P : β → Prop)
    (hf : ∀ c v, P v → P (f c v)) (hg : ∀ c, P (g c)) (cs : List γ) :
    ∀ kv ∈ jsMapFold sel f g cs, P kv.2 := by
  suffices h : ∀ m : List (κ × β), (∀ kv ∈ m, P kv.2) →
      ∀ kv ∈ cs.foldl (jsMapStep sel f g) m, P kv.2 by
    exact h [] (by simp)
  induction cs with
  | nil => intro m hm kv hkv; exact hm kv hkv
  | cons c cs ih =>
    intro m hm kv hkv
    simp only [List.foldl_cons] at hkv
    refine ih (jsMapStep sel f g m c) ?_ kv hkv
    unfold jsMapStep
    cases hsel : sel c with
    | none => exact hm
    | some k => exact mapBump_values k (f c) (g c) P (hf c) (hg c) m hm

theorem length_filterMap_eq_length_filter (sel : γ → Option κ) (cs : List γ) :
    (cs.filterMap sel).length = (cs.filter fun c => (sel c).isSome).length := by
  induction cs with
  | nil => simp
  | cons c cs ih =>
    cases hsel : sel c with
    | none => simp [List.filterMap_cons, hsel, List.filter_cons, ih]
    | some k => simp [List.filterMap_cons, hsel, List.filter_cons, ih]

/-! ## API client (src/lib/api.ts)

Each client function first runs its local guard; a thrown `ApiError` is the
`Except.error` branch and happens before `fetchApi` is reached, so `.ok`
carries the request (endpoint path and raw query parameters) that would be
issued and `.error` means no HTTP request is made. -/

/-- `ApiError` with its user-visible message and HTTP-like status. -/
structure ApiError where
  message : String
  status : Int
deriving DecidableEq

/-- The request `fetchApi` would issue: endpoint path plus query parameters
(held unencoded; `encodeURIComponent` is a transport detail). -/
structure ApiRequest where
  path : String
  params : List (String × String)
deriving DecidableEq

def searchRepositories (query : String) : Except ApiError ApiRequest :=
  if query.trim = "" then
    .error ⟨("Query parameter is required"), 400⟩
  else
    .ok ⟨("/github/search"), [(("query"), query)]⟩

def getRepositoryDetails (owner repo : String) : Except ApiError ApiRequest :=
  if owner.trim = "" ∨ repo.trim = "" then
    .error ⟨("Owner and repo parameters are required"), 400⟩
  else
    .ok ⟨("/github/get_repository_details"), [(("owner"), owner), (("repo"), repo)]⟩

def getRepositoryById (id : Int) : Except ApiError ApiRequest :=
  if id = 0 then
    .error ⟨("Repository ID is required"), 400⟩
  else
    .ok ⟨("/github/get_repository_by_id"), [(("id"), toString id)]⟩

def getRepositoryContributors (owner repo : String) (perPage page : Nat) :
    Except ApiError ApiRequest :=
  if owner.trim = "" ∨ repo.trim = "" then
    .error ⟨("Owner and repo parameters are required"), 400⟩
  else
    .ok ⟨("/github/get_repository_contributors"),
      [(("owner"), owner), (("repo"), repo), (("per_page"), toString perPage),
        (("page"), toString page)]⟩

def getRepositoryIssues (owner repo : String) : Except ApiError ApiRequest :=
  if owner.trim = "" ∨ repo.trim = "" then
    .error ⟨("Owner and repo parameters are required"), 400⟩
  else
    .ok ⟨("/github/get_repository_issues"), [(("owner"), owner), (("repo"), repo)]⟩

def getRepositoryCommits (owner repo : String) (perPage : Nat) :
    Except ApiError ApiRequest :=
  if owner.trim = "" ∨ repo.trim = "" then
    .error ⟨("Owner and repo parameters are required"), 400⟩
  else
    .ok ⟨("/github/get_repository_commits"),
      [(("owner"), owner), (("repo"), repo), (("per_page"), toString perPage)]⟩

/-! ## Language Normalizer
(`languageData` in src/components/repository/language-distribution.tsx)

The language map arrives as a JS object, embedded as its insertion-ordered
`Object.entries` list. `percentage` keeps the exact pre-`toFixed` value;
`0 / 0` (the only division the `Nat`-valued byte counts can make of a zero
total) is JS `NaN`, encoded `none`. -/

structure LanguageData where
  name : String
  value : Nat
  percentage : Option Rat
deriving DecidableEq

/-- `(bytes / totalBytes) * 100` under JS semantics for `Nat` byte counts:
a zero total means `0 / 0 = NaN`. -/
def jsPercentOfTotal (bytes total : Nat) : Option Rat :=
  if total = 0 then none else some ((bytes : Rat) / (total : Rat) * 100)

def languageData (languages : List (String × Nat)) : List LanguageData :=
  if languages.length = 0 then []
  else
    let totalBytes := (languages.map Prod.snd).sum
    sortBy (fun a b => decide (b.value ≤ a.value))
      (languages.map fun kv =>
        { name := kv.1, value := kv.2, percentage := jsPercentOfTotal kv.2 totalBytes })

/-! ## Fetch failures and the repository detail page

A value thrown inside `fetchData` is either an `ApiError` or anything else
(`instanceof ApiError` fails); the `catch` block branches on that and on
`status === 404`. -/

inductive FetchFailure where
  | api (e : ApiError)
  | other
deriving DecidableEq

/-- The `catch` block of `fetchData`: 404 renders the not-found view, any
other failure shows a toast and navigates home. -/
def handleFetchError (e : FetchFailure) (s : α) (setNotFound setNavigated : α → α) : α :=
  match e with
  | .api err => if err.status = 404 then setNotFound s else setNavigated s
  | .other => setNavigated s

/-! ## Contributor pagination loop (`fetchData`, repository detail page)

`fetchPage p` is the outcome of `api.getRepositoryContributors(owner, repo,
100, p)`. The loop body mirrors the `while (hasMore)` loop: a page is
requested, a throw aborts the whole loop, an empty page stops, a short page
(fewer than 100 records) is appended and stops, a full page is appended and
the loop continues unless the incremented page index passes the 10-page
safety ceiling. The returned pair is (merge outcome, pages requested); the
fuel of 10 is an upper bound on the iterations the ceiling admits. -/

def contributorLoop (fetchPage : Nat → Except FetchFailure (List Contributor)) :
    Nat → List Contributor → List Nat → Nat →
      Except FetchFailure (List Contributor) × List Nat
  | _, acc, reqs, 0 => (.ok acc, reqs)
  | page, acc, reqs, fuel + 1 =>
    match fetchPage page with
    | .error e => (.error e, reqs ++ [page])
    | .ok contributorsPage =>
      if contributorsPage.length = 0 then
        (.ok acc, reqs ++ [page])
      else if contributorsPage.length < 100 then
        (.ok (acc ++ contributorsPage), reqs ++ [page])
      else if page + 1 > 10 then
        (.ok (acc ++ contributorsPage), reqs ++ [page])
      else
        contributorLoop fetchPage (page + 1) (acc ++ contributorsPage)
          (reqs ++ [page]) fuel

def fetchAllContributors (fetchPage : Nat → Except FetchFailure (List Contributor)) :
    Except FetchFailure (List Contributor) × List Nat :=
  contributorLoop fetchPage 1 [] [] 10

/-- State of the single-page repository view (the `useState` cells of the
repository detail page); `navigatedHome` records a `router.push("/")`. -/
structure RepoPageState where
  repository : Option RepositoryDetails
  commits : List Commit
  contributors : List Contributor
  isLoading : Bool
  isNotFound : Bool
  navigatedHome : Bool
deriving DecidableEq

def initialRepoPageState : RepoPageState :=
  { repository := none, commits := [], contributors := [], isLoading := true,
    isNotFound := false, navigatedHome := false }

/-- `fetchData` of the single-page repository view: repository lookup, then
the commit window (published with `setCommits` immediately), then the
contributor pagination loop; `setRepository`/`setContributors` run only
after the loop succeeds; the `catch` branches on the failure and the
`finally` clears `isLoading`. -/
def fetchData (getRepo : Except FetchFailure RepositoryDetails)
    (getCommits : Except FetchFailure (List Commit))
    (fetchPage : Nat → Except FetchFailure (List Contributor))
    (init : RepoPageState) : RepoPageState :=
  let s₀ := { init with isLoading := true }
  let afterTry :=
    match getRepo with
    | .error e =>
      handleFetchError e s₀ (fun s => { s with isNotFound := true })
        (fun s => { s with navigatedHome := true })
    | .ok repoDetails =>
      match getCommits with
      | .error e =>
        handleFetchError e s₀ (fun s => { s with isNotFound := true })
          (fun s => { s with navigatedHome := true })
      | .ok commitsData =>
        let s₁ := { s₀ with commits := commitsData }
        match (fetchAllContributors fetchPage).1 with
        | .error e =>
          handleFetchError e s₁ (fun s => { s with isNotFound := true })
            (fun s => { s with navigatedHome := true })
        | .ok allContributors =>
          { s₁ with repository := some repoDetails, contributors := allContributors }
  { afterTry with isLoading := false }

/-! ## Per-panel fetch effects of the split components

`ContributorsList` and `CommitTimeline`/`UserImpact` each own their fetch:
a success publishes the panel's data, a failure only sets the panel's local
error message; the panels are independent of one another. -/

structure ContributorsPanelState where
  contributors : List Contributor
  isLoading : Bool
  error : Option String
deriving DecidableEq

def initialContributorsPanel : ContributorsPanelState :=
  { contributors := [], isLoading := true, error := none }

/-- `fetchContributors` in src/components/repository/contributors-list.tsx. -/
def fetchContributorsEffect (result : Except FetchFailure (List Contributor))
    (s : ContributorsPanelState) : ContributorsPanelState :=
  let s₀ := { s with isLoading := true, error := none }
  let s₁ :=
    match result with
    | .ok data => { s₀ with contributors := data }
    | .error (.api e) => { s₀ with error := some e.message }
    | .error .other => { s₀ with error := some ("Failed to load contributors") }
  { s₁ with isLoading := false }

structure CommitsPanelState where
  commits : List Commit
  isLoading : Bool
  error : Option String
deriving DecidableEq

def initialCommitsPanel : CommitsPanelState :=
  { commits := [], isLoading := true, error := none }

/-- `fetchCommits` in src/components/repository/contributors-list.tsx
(`CommitTimeline`; `UserImpact` in src/unnamed/part_003 is identical). -/
def fetchCommitsEffect (result : Except FetchFailure (List Commit))
    (s : CommitsPanelState) : CommitsPanelState :=
  let s₀ := { s with isLoading := true, error := none }
  let s₁ :=
    match result with
    | .ok data => { s₀ with commits := data }
    | .error (.api e) => { s₀ with error := some e.message }
    | .error .other => { s₀ with error := some ("Failed to load commits") }
  { s₁ with isLoading := false }

/-! ## Impact Aggregator (`contributorStats` in `UserImpact`)

The JS `Map` is keyed by `string | number`; `AuthorKey` is that union.
`resolveKey` is `key = author.id || author.login || null` for a resolved
author, `key = commit.author.email` for an anonymous one, combined with the
`if (key)` truthiness guard (a number is falsy iff 0, a string iff empty). -/

inductive AuthorKey where
  | num (n : Int)
  | str (s : String)
deriving DecidableEq

def resolveKey (c : Commit) : Option AuthorKey :=
  match c.author with
  | some a =>
    if a.id ≠ 0 then some (.num a.id)
    else if a.login ≠ "" then some (.str a.login)
    else none
  | none =>
    if c.commitAuthor.email ≠ "" then some (.str c.commitAuthor.email) else none

/-- The per-key record of the `authorCounts` map: the running count plus the
display fields snapshotted from the key's first commit. -/
structure AuthorInfo where
  count : Nat
  author : Option GitUser
  commitAuthorEmail : String
  commitAuthorName : String
deriving DecidableEq

def authorCounts (commits : List Commit) : List (AuthorKey × AuthorInfo) :=
  jsMapFold resolveKey
    (fun _ info => { info with count := info.count + 1 })
    (fun c =>
      { count := 1, author := c.author, commitAuthorEmail := c.commitAuthor.email,
        commitAuthorName := c.commitAuthor.name })
    commits

/-- The view-model row of the impact list (`ContributorStats` enriched with
`isAnonymous` as `UserImpact` builds it); `percentage` holds the exact value
of `(count / totalCommits) * 100`. -/
structure ContributorStats where
  login : String
  name : String
  avatar_url : Option String
  html_url : Option String
  commitCount : Nat
  percentage : Rat
  isAnonymous : Bool
deriving DecidableEq

/-- The body of the `.map(...)` in `contributorStats`: `x || undefined`
collapses an absent author or empty URL to `none`, `author?.login || ''`
to the empty string. -/
def toContributorStat (totalCommits : Nat) (info : AuthorInfo) : ContributorStats :=
  let isAnonymous := info.author.isNone
  { login :=
      if isAnonymous then info.commitAuthorEmail
      else (info.author.map GitUser.login).getD ""
    name :=
      if isAnonymous then info.commitAuthorName
      else (info.author.map GitUser.login).getD ""
    avatar_url :=
      match info.author with
      | some a => if a.avatar_url = "" then none else some a.avatar_url
      | none => none
    html_url :=
      match info.author with
      | some a => if a.html_url = "" then none else some a.html_url
      | none => none
    commitCount := info.count
    percentage :=
      if 0 < totalCommits then (info.count : Rat) / (totalCommits : Rat) * 100 else 0
    isAnonymous := isAnonymous }

def contributorStats (commits : List Commit) : List ContributorStats :=
  if commits.length = 0 then []
  else
    sortBy (fun a b => decide (b.commitCount ≤ a.commitCount))
      ((authorCounts commits).map fun kv => toContributorStat commits.length kv.2)

/-! ## Timeline Bucketizer (`timelineData` in `CommitTimeline`)

The bucket key `new Date(commit.commit.committer.date).toISOString()
.split("T")[0]` is the committer timestamp truncated to its UTC calendar
day; on epoch milliseconds that is division by 86 400 000, and the
ascending `localeCompare` sort on the YYYY-MM-DD strings is numeric order
on these day indices. The en-US `formattedDate` label is presentation and
not carried. -/

def utcDayKey (ms : Nat) : Nat := ms / 86400000

structure TimelinePoint where
  date : Nat
  commits : Nat
deriving DecidableEq

def dayCounts (commits : List Commit) : List (Nat × Nat) :=
  jsMapFold (fun c => some (utcDayKey c.commitCommitter.date))
    (fun _ count => count + 1) (fun _ => 1) commits

def timelineData (commits : List Commit) : List TimelinePoint :=
  if commits.length = 0 then []
  else
    sortBy (fun a b => decide (a.date ≤ b.date))
      ((dayCounts commits).map fun kv => { date := kv.1, commits := kv.2 })

/-! ## Fetch orchestration of the componentised repository page
(src/app/repository/[id]/page.tsx)

A change of the route's repository id re-runs the effect: the new cycle
calls `setIsLoading(true)` and awaits `api.getRepositoryById`. The effect
installs no cleanup and compares nothing on resume, so when the awaited
response arrives — however late — it is applied to the shared state
unconditionally. `runCycles` replays one such interleaving: every started
cycle first runs its synchronous prefix, and the responses then arrive in
`arrivals` order, each resolved by the same unguarded continuation. -/

structure RepoViewState where
  repository : Option RepositoryDetails
  isLoading : Bool
  isNotFound : Bool
  navigatedHome : Bool
deriving DecidableEq

def initialRepoViewState : RepoViewState :=
  { repository := none, isLoading := true, isNotFound := false,
    navigatedHome := false }

/-- The synchronous prefix of `fetchRepositoryData`: `setIsLoading(true)`
before the first `await`. -/
def startFetchCycle (s : RepoViewState) : RepoViewState :=
  { s with isLoading := true }

/-- The continuation of `fetchRepositoryData` after `await
api.getRepositoryById(repoId)` resolves: publish the details, or branch on
the failure, then clear `isLoading` — with no check that the resolving
cycle is still the current one. -/
def resolveFetchCycle (outcome : Except FetchFailure RepositoryDetails)
    (s : RepoViewState) : RepoViewState :=
  let s₁ :=
    match outcome with
    | .ok repoDetails => { s with repository := some repoDetails }
    | .error e =>
      handleFetchError e s (fun s => { s with isNotFound := true })
        (fun s => { s with navigatedHome := true })
  { s₁ with isLoading := false }

/-- Replay of an interleaving: the cycles in `starts` run their synchronous
prefixes (in start order), then the outcomes arrive in `arrivals` order,
`outcomes i` being what the data source answers for repository id `i`. -/
def runCycles (outcomes : Int → Except FetchFailure RepositoryDetails)
    (starts arrivals : List Int) (init : RepoViewState) : RepoViewState :=
  arrivals.foldl (fun s i => resolveFetchCycle (outcomes i) s)
    (starts.foldl (fun s _ => startFetchCycle s) init)

/-! ## Characterisation of the contributor pagination loop -/

/-- The merged collection of a pagination outcome (empty on a failed merge);
used to state properties of the success branch. -/
def mergedOrEmpty (r : Except FetchFailure (List Contributor)) : List Contributor :=
  match r with
  | .ok l => l
  | .error _ => []

theorem contributorLoop_ok_spec (pages : Nat → List Contributor) :
    ∀ (fuel p : Nat) (acc : List Contributor) (reqs : List Nat),
      1 ≤ p → p ≤ 10 → p + fuel = 11 →
      ∃ n, p ≤ n ∧ n ≤ 10 ∧
        contributorLoop (fun i => .ok (pages i)) p acc reqs fuel =
          (.ok (acc ++ ((List.range' p (n + 1 - p)).map pages).flatten),
            reqs ++ List.range' p (n + 1 - p)) ∧
        (∀ i, p ≤ i → i < n → 100 ≤ (pages i).length) ∧
        (n = 10 ∨ (pages n).length < 100) := by
  intro fuel
  induction fuel with
  | zero => intro p acc reqs h1 h10 hsum; omega
  | succ fuel ih =>
    intro p acc reqs h1 h10 hsum
    have hone : p + 1 - p = 1 := by omega
    by_cases h0 : (pages p).length = 0
    · refine ⟨p, le_refl p, h10, ?_, ?_, Or.inr (by omega)⟩
      · have hnil : pages p = [] := List.length_eq_zero.mp h0
        simp [contributorLoop, h0, hone, hnil]
      · intro i hpi hip; omega
    · by_cases h100 : (pages p).length < 100
      · refine ⟨p, le_refl p, h10, ?_, ?_, Or.inr h100⟩
        · simp [contributorLoop, h0, h100, hone]
        · intro i hpi hip; omega
      · by_cases hceil : p + 1 > 10
        · have hp10 : p = 10 := by omega
          refine ⟨p, le_refl p, h10, ?_, ?_, Or.inl hp10⟩
          · simp [contributorLoop, h0, h100, hceil, hone]
          · intro i hpi hip; omega
        · obtain ⟨n, hn1, hn10, heq, hfull, hstop⟩ :=
            ih (p + 1) (acc ++ pages p) (reqs ++ [p]) (by omega) (by omega)
              (by omega)
          refine ⟨n, by omega, hn10, ?_, ?_, hstop⟩
          · have hsucc : n + 1 - p = (n - p) + 1 := by omega
            have htail : n + 1 - (p + 1) = n - p := by omega
            have hrange : List.range' p (n + 1 - p) =
                p :: List.range' (p + 1) (n - p) := by
              rw [hsucc]
              simpa using List.range'_succ p (n - p) 1
            rw [htail] at heq
            simp only [contributorLoop, h0, h100, hceil, if_false, if_neg h0,
              if_neg h100, if_neg hceil]
            rw [heq, hrange]
            simp [List.append_assoc]
          · intro i hpi hip
            rcases Nat.eq_or_lt_of_le hpi with heqi | hlt
            · rw [← heqi]; omega
            · exact hfull i (by omega) hip

theorem fetchAllContributors_ok_spec (pages : Nat → List Contributor) :
    ∃ n, 1 ≤ n ∧ n ≤ 10 ∧
      fetchAllContributors (fun i => .ok (pages i)) =
        (.ok (((List.range' 1 n).map pages).flatten), List.range' 1 n) ∧
      (∀ i, 1 ≤ i → i < n → 100 ≤ (pages i).length) ∧
      (n = 10 ∨ (pages n).length < 100) := by
  obtain ⟨n, hn1, hn10, heq, hfull, hstop⟩ :=
    contributorLoop_ok_spec pages 10 1 [] [] (by omega) (by omega) (by omega)
  refine ⟨n, hn1, hn10, ?_, hfull, hstop⟩
  have h : n + 1 - 1 = n := by omega
  rw [h] at heq
  simpa [fetchAllContributors] using heq

/-- A synthetic contributor row, used as concrete test data. -/
def mkContributor (i : Nat) : Contributor :=
  { login := ("u") ++ toString i, id := (i : Int), avatar_url := "",
    html_url := "", contributions := 0 }

/-- Pages of sizes [100, 100, 37]. -/
def pagesShortAt3 (i : Nat) : List Contributor :=
  if i = 1 then (List.range 100).map mkContributor
  else if i = 2 then (List.range 100).map fun j => mkContributor (100 + j)
  else if i = 3 then (List.range 37).map fun j => mkContributor (200 + j)
  else []

/-- An unbounded sequence of full pages (100 records each). -/
def pagesAllFull (i : Nat) : List Contributor :=
  (List.range 100).map fun j => mkContributor (100 * i + j)

/-- Pages of sizes [100, 1] whose second page repeats a record of the
first. -/
def dupPages (i : Nat) : List Contributor :=
  if i = 1 then (List.range 100).map mkContributor
  else if i = 2 then [mkContributor 7]
  else []

/-! ## Claim theorems -/

set_option maxRecDepth 4000 in
/-- C5: the contributor merger requests pages 1, 2, … strictly in order and
stops exactly at the first page that is empty or short (fewer than 100
records) or at the 10-page ceiling; every earlier page was full. On pages
of sizes [100, 100, 37] it makes exactly the requests [1, 2, 3] and merges
237 records; on unboundedly many full pages it makes requests 1..10, merges
1000 records and never requests page 11. -/
theorem contributor_merger_pagination :
    (∀ pages : Nat → List Contributor, ∃ n, 1 ≤ n ∧ n ≤ 10 ∧
        fetchAllContributors (fun i => .ok (pages i)) =
          (.ok (((List.range' 1 n).map pages).flatten), List.range' 1 n) ∧
        (∀ i, 1 ≤ i → i < n → 100 ≤ (pages i).length) ∧
        (n = 10 ∨ (pages n).length < 100)) ∧
    (fetchAllContributors fun i => .ok (pagesShortAt3 i)).2 = [1, 2, 3] ∧
    (mergedOrEmpty (fetchAllContributors fun i => .ok (pagesShortAt3 i)).1).length = 237 ∧
    (fetchAllContributors fun i => .ok (pagesAllFull i)).2 = List.range' 1 10 ∧
    (mergedOrEmpty (fetchAllContributors fun i => .ok (pagesAllFull i)).1).length = 1000 := by
  refine ⟨fetchAllContributors_ok_spec, ?_, ?_, ?_, ?_⟩ <;> rfl

/-- C2 counterexample: a full first page followed by a second page that
repeats one of its records merges to a collection holding that record (and
so its identity key) twice — the merged collection is not duplicate-free. -/
theorem contributor_merge_duplicate_cex :
    (mergedOrEmpty (fetchAllContributors fun i => .ok (dupPages i)).1).count
        (mkContributor 7) = 2 ∧
    ¬ (mergedOrEmpty (fetchAllContributors fun i => .ok (dupPages i)).1).Nodup := by
  have hc : (mergedOrEmpty (fetchAllContributors fun i => .ok (dupPages i)).1).count
      (mkContributor 7) = 2 := by rfl
  refine ⟨hc, fun hn => ?_⟩
  have h1 := List.nodup_iff_count_le_one.mp hn (mkContributor 7)
  omega

/-- C2 amended: the merge performs no de-duplication at all — the merged
collection is exactly the concatenation of the fetched pages in arrival
order, so a record occurs as many times as it occurs across the fetched
pages. -/
theorem contributor_merge_is_concat (pages : Nat → List Contributor)
    (c : Contributor) :
    ∃ n, 1 ≤ n ∧ n ≤ 10 ∧
      mergedOrEmpty (fetchAllContributors fun i => .ok (pages i)).1 =
        ((List.range' 1 n).map pages).flatten ∧
      (mergedOrEmpty (fetchAllContributors fun i => .ok (pages i)).1).count c =
        (((List.range' 1 n).map pages).map (List.count c)).sum := by
  obtain ⟨n, h1, h10, heq, -, -⟩ := fetchAllContributors_ok_spec pages
  refine ⟨n, h1, h10, ?_, ?_⟩
  · rw [heq]
    rfl
  · rw [heq]
    exact List.count_flatten c ((List.range' 1 n).map pages)


/-- A synthetic anonymous commit (committer timestamp 2024-01-02T23:59:59Z
as epoch milliseconds), used as concrete test data. -/
def exCommit : Commit :=
  { sha := ("abc"),
    commitAuthor := { name := ("Ann"), email := ("ann@x.com"), date := 1704239999000 },
    commitCommitter := { name := ("Ann"), email := ("ann@x.com"), date := 1704239999000 },
    author := none, committer := none }

/-- C4 counterexample: with the commit-window fetch succeeding and the first
contributor page throwing, the single-page fetcher still publishes the
commit window (from which a non-empty timeline view model is derived) while
the cycle as a whole fails; and in the split components a successful
contributor fetch publishes the contributor list even though the
commit-window fetch of the sibling panel failed — a degraded partial
result, not all-or-nothing. -/
theorem fetch_failure_partial_publish_cex :
    (fetchData (.ok ⟨1, ("o/r")⟩) (.ok [exCommit])
        (fun _ => .error (.api ⟨("boom"), 500⟩)) initialRepoPageState).commits
      = [exCommit] ∧
    (fetchData (.ok ⟨1, ("o/r")⟩) (.ok [exCommit])
        (fun _ => .error (.api ⟨("boom"), 500⟩)) initialRepoPageState).navigatedHome
      = true ∧
    (fetchData (.ok ⟨1, ("o/r")⟩) (.ok [exCommit])
        (fun _ => .error (.api ⟨("boom"), 500⟩)) initialRepoPageState).repository
      = none ∧
    timelineData [exCommit] ≠ [] ∧
    (fetchContributorsEffect (.ok [mkContributor 1]) initialContributorsPanel).contributors
      = [mkContributor 1] ∧
    (fetchContributorsEffect (.ok [mkContributor 1]) initialContributorsPanel).error
      = none ∧
    (fetchCommitsEffect (.error (.api ⟨("boom"), 500⟩)) initialCommitsPanel).error
      = some ("boom") := by
  decide

/-- C4 amended: a repository-lookup or commit-window failure publishes no
data, but the commit window is published before the contributor loop runs,
so a contributor-page failure leaves the fetched commits (and any view
model derived from them) published while repository and merged contributors
are withheld; and the split components publish independently — a
contributor fetch success is published regardless of the sibling commit
panel, whose failure only sets its own error. -/
theorem fetch_failure_publication (r : RepositoryDetails) (cs : List Commit)
    (fetchPage : Nat → Except FetchFailure (List Contributor))
    (e : FetchFailure) (init : RepoPageState) (contribs : List Contributor)
    (cinit : ContributorsPanelState) (minit : CommitsPanelState) :
    ((fetchAllContributors fetchPage).1 = .error e →
      (fetchData (.ok r) (.ok cs) fetchPage init).commits = cs ∧
      (fetchData (.ok r) (.ok cs) fetchPage init).repository = init.repository ∧
      (fetchData (.ok r) (.ok cs) fetchPage init).contributors = init.contributors) ∧
    ((fetchData (.ok r) (.error e) fetchPage init).commits = init.commits ∧
      (fetchData (.ok r) (.error e) fetchPage init).repository = init.repository ∧
      (fetchData (.ok r) (.error e) fetchPage init).contributors = init.contributors) ∧
    ((fetchData (.error e) (.ok cs) fetchPage init).commits = init.commits ∧
      (fetchData (.error e) (.ok cs) fetchPage init).repository = init.repository ∧
      (fetchData (.error e) (.ok cs) fetchPage init).contributors = init.contributors) ∧
    ((fetchContributorsEffect (.ok contribs) cinit).contributors = contribs ∧
      (fetchContributorsEffect (.ok contribs) cinit).error = none) ∧
    ((fetchCommitsEffect (.error e) minit).commits = minit.commits ∧
      (fetchCommitsEffect (.error e) minit).error.isSome = true) := by
  refine ⟨?_, ?_, ?_, ?_, ?_⟩
  · intro h
    cases e with
    | api err =>
      refine ⟨?_, ?_, ?_⟩ <;>
        simp [fetchData, h, handleFetchError] <;> split <;> rfl
    | other =>
      refine ⟨?_, ?_, ?_⟩ <;> simp [fetchData, h, handleFetchError]
  · cases e with
    | api err =>
      refine ⟨?_, ?_, ?_⟩ <;>
        simp [fetchData, handleFetchError] <;> split <;> rfl
    | other =>
      refine ⟨?_, ?_, ?_⟩ <;> simp [fetchData, handleFetchError]
  · cases e with
    | api err =>
      refine ⟨?_, ?_, ?_⟩ <;>
        simp [fetchData, handleFetchError] <;> split <;> rfl
    | other =>
      refine ⟨?_, ?_, ?_⟩ <;> simp [fetchData, handleFetchError]
  · exact ⟨rfl, rfl⟩
  · cases e with
    | api err => exact ⟨rfl, rfl⟩
    | other => exact ⟨rfl, rfl⟩

/-- C3 counterexample: a non-empty language map whose only byte count is 0
has total 0, yet the normalizer returns a non-empty sequence whose entry
carries the NaN percentage of `0 / 0` (encoded `none`). -/
theorem language_zero_total_cex :
    languageData [(("Rust"), 0)] =
      [{ name := ("Rust"), value := 0, percentage := none }] ∧
    languageData [(("Rust"), 0)] ≠ [] := by
  decide

/-- C3 amended: the normalizer returns the empty sequence only when the
language mapping itself is empty; for a non-empty mapping with total byte
count 0 it returns one entry per language, each with the NaN percentage,
and NaN percentages occur exactly in that case (a positive total yields no
NaN). -/
theorem language_normalizer_zero_total (languages : List (String × Nat)) :
    (languages = [] → languageData languages = []) ∧
    ((languages.map Prod.snd).sum = 0 →
      (languageData languages).length = languages.length ∧
      ∀ entry ∈ languageData languages, entry.percentage = none) ∧
    (0 < (languages.map Prod.snd).sum →
      ∀ entry ∈ languageData languages, entry.percentage ≠ none) := by
  refine ⟨?_, ?_, ?_⟩
  · intro h
    rw [h]
    rfl
  · intro h0
    by_cases hlen : languages.length = 0
    · constructor
      · simp [languageData, hlen]
      · intro entry hentry
        rw [languageData, if_pos hlen] at hentry
        simp at hentry
    · constructor
      · rw [languageData, if_neg hlen]
        rw [((sortBy_perm _ _).length_eq : _)]
        simp
      · intro entry hentry
        rw [languageData, if_neg hlen] at hentry
        rw [mem_sortBy] at hentry
        obtain ⟨kv, hkv, rfl⟩ := List.mem_map.mp hentry
        simp [jsPercentOfTotal, h0]
  · intro hpos entry hentry
    have hlen : ¬ languages.length = 0 := by
      intro h
      rw [List.length_eq_zero.mp h] at hpos
      simp at hpos
    rw [languageData, if_neg hlen] at hentry
    rw [mem_sortBy] at hentry
    obtain ⟨kv, hkv, rfl⟩ := List.mem_map.mp hentry
    simp [jsPercentOfTotal]
    omega

theorem contributorStats_count_sum (commits : List Commit) :
    ((contributorStats commits).map fun e => e.commitCount).sum =
      (commits.filter fun c => (resolveKey c).isSome).length := by
  by_cases h : commits.length = 0
  · have hc : commits = [] := List.length_eq_zero.mp h
    subst hc
    rfl
  · rw [contributorStats, if_neg h]
    calc (((sortBy (fun a b => decide (b.commitCount ≤ a.commitCount))
            ((authorCounts commits).map fun kv =>
              toContributorStat commits.length kv.2))).map fun e => e.commitCount).sum
        = (((authorCounts commits).map fun kv =>
            toContributorStat commits.length kv.2).map fun e => e.commitCount).sum :=
          ((sortBy_perm _ _).map _).sum_eq
      _ = ((authorCounts commits).map fun kv => kv.2.count).sum := by
          rw [List.map_map]
          rfl
      _ = (commits.filterMap resolveKey).length := by
          have h := jsMapFold_measure resolveKey
            (fun _ info => { info with count := info.count + 1 })
            (fun c =>
              { count := 1, author := c.author,
                commitAuthorEmail := c.commitAuthor.email,
                commitAuthorName := c.commitAuthor.name })
            AuthorInfo.count (fun _ _ => rfl) (fun _ => rfl) commits
          exact h
      _ = (commits.filter fun c => (resolveKey c).isSome).length :=
          length_filterMap_eq_length_filter resolveKey commits

/-- C6: the impact counts add up to the number of commits whose identity is
resolvable (a registered author with a nonzero id or non-empty login, or a
non-empty commit-author email), and every entry's percentage is its count
over the full window length (unattributable commits inflate the
denominator while producing no entry). -/
theorem impact_counts_and_percentages (commits : List Commit) :
    (∀ c : Commit, (resolveKey c).isSome = true ↔
      (match c.author with
        | some a => a.id ≠ 0 ∨ a.login ≠ ""
        | none => c.commitAuthor.email ≠ "")) ∧
    ((contributorStats commits).map fun e => e.commitCount).sum =
      (commits.filter fun c => (resolveKey c).isSome).length ∧
    ∀ e ∈ contributorStats commits,
      e.percentage = (e.commitCount : Rat) / (commits.length : Rat) * 100 := by
  refine ⟨?_, contributorStats_count_sum commits, ?_⟩
  · intro c
    rcases hauth : c.author with _ | a
    · simp only [resolveKey, hauth]
      split_ifs with h1 <;> simp [h1]
    · simp only [resolveKey, hauth]
      split_ifs with h1 h2
      · simp [h1]
      · simp [h1, h2]
      · simp [h1, h2]
  · intro e he
    by_cases h : commits.length = 0
    · rw [contributorStats, if_pos h] at he
      simp at he
    · rw [contributorStats, if_neg h, mem_sortBy] at he
      obtain ⟨kv, hkv, rfl⟩ := List.mem_map.mp he
      have hpos : 0 < commits.length := Nat.pos_of_ne_zero h
      show (if 0 < commits.length then
          (kv.2.count : Rat) / (commits.length : Rat) * 100 else 0) =
        (kv.2.count : Rat) / (commits.length : Rat) * 100
      rw [if_pos hpos]

def mkUser (login : String) (i : Int) : GitUser :=
  { login := login, id := i, avatar_url := "", html_url := "" }

def mkAuthored (u : GitUser) (sha : String) : Commit :=
  { sha := sha,
    commitAuthor := { name := u.login, email := ("x@x.com"), date := 0 },
    commitCommitter := { name := u.login, email := ("x@x.com"), date := 0 },
    author := some u, committer := some u }

def userA : GitUser := mkUser ("A") 1

def userB : GitUser := mkUser ("B") 2

def userC : GitUser := mkUser ("C") 3

/-- Commits for identities [A, B, A, C, B, A]. -/
def exImpactCommits : List Commit :=
  [mkAuthored userA ("c1"), mkAuthored userB ("c2"), mkAuthored userA ("c3"),
    mkAuthored userC ("c4"), mkAuthored userB ("c5"), mkAuthored userA ("c6")]

def exStatA : ContributorStats :=
  { login := ("A"), name := ("A"), avatar_url := none, html_url := none,
    commitCount := 3,
    percentage := ((3 : Nat) : Rat) / ((6 : Nat) : Rat) * 100,
    isAnonymous := false }

def exStatB : ContributorStats :=
  { login := ("B"), name := ("B"), avatar_url := none, html_url := none,
    commitCount := 2,
    percentage := ((2 : Nat) : Rat) / ((6 : Nat) : Rat) * 100,
    isAnonymous := false }

def exStatC : ContributorStats :=
  { login := ("C"), name := ("C"), avatar_url := none, html_url := none,
    commitCount := 1,
    percentage := ((1 : Nat) : Rat) / ((6 : Nat) : Rat) * 100,
    isAnonymous := false }

set_option maxRecDepth 4000 in
theorem contributorStats_exImpact_eq :
    contributorStats exImpactCommits = [exStatA, exStatB, exStatC] := by
  rfl

/-- C7: the impact ranking is sorted by commit count descending; elements
with equal counts keep their pre-sort order (the sort is stable), the
pre-sort order lists identity keys in first-seen order of the input
commits, and on commits for identities [A, B, A, C, B, A] the ranking is
A(3, 50%), B(2, 100/3 %), C(1, 50/3 %). -/
theorem impact_ranking_stable (commits : List Commit) :
    (contributorStats commits).Pairwise (fun a b => b.commitCount ≤ a.commitCount) ∧
    (∀ k : Nat, (contributorStats commits).filter (fun e => e.commitCount == k) =
      ((authorCounts commits).map fun kv =>
        toContributorStat commits.length kv.2).filter fun e => e.commitCount == k) ∧
    (authorCounts commits).map Prod.fst = firstSeen (commits.filterMap resolveKey) ∧
    contributorStats exImpactCommits = [exStatA, exStatB, exStatC] ∧
    exStatA.percentage = 50 ∧ exStatB.percentage = (100 : Rat) / 3 ∧
    exStatC.percentage = (50 : Rat) / 3 := by
  refine ⟨?_, ?_, jsMapFold_keys _ _ _ commits, contributorStats_exImpact_eq,
    by norm_num [exStatA], by norm_num [exStatB], by norm_num [exStatC]⟩
  · by_cases h : commits.length = 0
    · rw [contributorStats, if_pos h]
      exact List.Pairwise.nil
    · rw [contributorStats, if_neg h]
      have hp := sortBy_pairwise (fun a b => decide (b.commitCount ≤ a.commitCount))
        (fun a b hab => by
          simp only [decide_eq_false_iff_not, decide_eq_true_eq] at hab ⊢
          omega)
        (fun a b c h1 h2 => by
          simp only [decide_eq_true_eq] at h1 h2 ⊢
          omega)
        ((authorCounts commits).map fun kv => toContributorStat commits.length kv.2)
      exact hp.imp fun hab => by simpa using hab
  · intro k
    by_cases h : commits.length = 0
    · have hc : commits = [] := List.length_eq_zero.mp h
      subst hc
      rfl
    · rw [contributorStats, if_neg h]
      refine filter_sortBy _ _ (fun x y hx hxy => ?_) _
      simp only [beq_iff_eq] at hx
      simp only [decide_eq_false_iff_not, decide_eq_true_eq] at hxy
      simp only [beq_eq_false_iff_ne, ne_eq]
      omega

/-- C9: every impact entry counts at least one commit — an entry exists only
for an identity key some window commit resolved to. -/
theorem impact_entry_has_commit (commits : List Commit) (e : ContributorStats)
    (he : e ∈ contributorStats commits) : 1 ≤ e.commitCount := by
  by_cases h : commits.length = 0
  · rw [contributorStats, if_pos h] at he
    simp at he
  · rw [contributorStats, if_neg h, mem_sortBy] at he
    obtain ⟨kv, hkv, rfl⟩ := List.mem_map.mp he
    exact jsMapFold_values resolveKey _ _ (fun info => 1 ≤ info.count)
      (fun c v _ => by
        show 1 ≤ v.count + 1
        omega)
      (fun c => by
        show 1 ≤ 1
        omega)
      commits kv hkv

/-- Witness for C9 at the concrete [A, B, A, C, B, A] window: the top entry
indeed has a positive commit count. -/
theorem impact_entry_has_commit_witness : 1 ≤ exStatA.commitCount :=
  impact_entry_has_commit exImpactCommits exStatA
    (by rw [contributorStats_exImpact_eq]; exact List.mem_cons_self _ _)

theorem dayCounts_sum (commits : List Commit) :
    ((dayCounts commits).map fun kv => kv.2).sum = commits.length := by
  have h := jsMapFold_measure (fun c => some (utcDayKey c.commitCommitter.date))
    (fun _ count => count + 1) (fun _ => 1) id (fun _ _ => rfl) (fun _ => rfl)
    commits
  have hlen : (commits.filterMap fun c =>
      some (utcDayKey c.commitCommitter.date)).length = commits.length := by
    rw [show (fun c : Commit => some (utcDayKey c.commitCommitter.date)) =
      (some ∘ fun c => utcDayKey c.commitCommitter.date) from rfl,
      List.filterMap_eq_map, List.length_map]
  rw [← hlen]
  exact h

theorem dayCounts_keys (commits : List Commit) :
    (dayCounts commits).map Prod.fst =
      firstSeen (commits.map fun c => utcDayKey c.commitCommitter.date) := by
  have h := jsMapFold_keys (fun c => some (utcDayKey c.commitCommitter.date))
    (fun _ count => count + 1) (fun _ => 1) commits
  rw [show (fun c : Commit => some (utcDayKey c.commitCommitter.date)) =
    (some ∘ fun c => utcDayKey c.commitCommitter.date) from rfl,
    List.filterMap_eq_map] at h
  exact h

theorem dayCounts_eq_of_dates (commits other : List Commit)
    (h : commits.map (fun c => c.commitCommitter.date) =
      other.map fun c => c.commitCommitter.date) :
    dayCounts commits = dayCounts other := by
  have key : ∀ cs : List Commit, dayCounts cs =
      (cs.map fun c => c.commitCommitter.date).foldl
        (fun m t => mapBump (utcDayKey t) (fun count => count + 1) 1 m) [] := by
    intro cs
    unfold dayCounts jsMapFold
    rw [List.foldl_map]
    rfl
  rw [key, key, h]

/-- C8: the timeline has one bucket per distinct UTC calendar day among the
committer timestamps (keys are duplicate-free and a day appears iff some
commit was committed on it), buckets are sorted ascending by day key,
counts add up to the window length, the empty window yields the empty
timeline, and the result depends only on committer timestamps — author
timestamps play no role. -/
theorem timeline_bucketizer_spec (commits other : List Commit) :
    timelineData [] = ([] : List TimelinePoint) ∧
    ((timelineData commits).map fun b => b.commits).sum = commits.length ∧
    ((timelineData commits).Pairwise fun a b => a.date ≤ b.date) ∧
    ((timelineData commits).map fun b => b.date).Nodup ∧
    (∀ d : Nat, (d ∈ (timelineData commits).map fun b => b.date) ↔
      d ∈ commits.map fun c => utcDayKey c.commitCommitter.date) ∧
    (commits.map (fun c => c.commitCommitter.date) =
        other.map (fun c => c.commitCommitter.date) →
      timelineData commits = timelineData other) := by
  refine ⟨rfl, ?_, ?_, ?_, ?_, ?_⟩
  · by_cases h : commits.length = 0
    · rw [timelineData, if_pos h]
      simp [List.length_eq_zero.mp h]
    · rw [timelineData, if_neg h]
      calc ((sortBy (fun a b : TimelinePoint => decide (a.date ≤ b.date))
              ((dayCounts commits).map fun kv =>
                ({ date := kv.1, commits := kv.2 } : TimelinePoint))).map
                  fun b => b.commits).sum
          = (((dayCounts commits).map fun kv =>
              ({ date := kv.1, commits := kv.2 } : TimelinePoint)).map
                fun b => b.commits).sum := ((sortBy_perm _ _).map _).sum_eq
        _ = ((dayCounts commits).map fun kv => kv.2).sum := by
            rw [List.map_map]
            rfl
        _ = commits.length := dayCounts_sum commits
  · by_cases h : commits.length = 0
    · rw [timelineData, if_pos h]
      exact List.Pairwise.nil
    · rw [timelineData, if_neg h]
      have hp := sortBy_pairwise (fun a b : TimelinePoint => decide (a.date ≤ b.date))
        (fun a b hab => by
          simp only [decide_eq_false_iff_not, decide_eq_true_eq] at hab ⊢
          omega)
        (fun a b c h1 h2 => by
          simp only [decide_eq_true_eq] at h1 h2 ⊢
          omega)
        ((dayCounts commits).map fun kv =>
          ({ date := kv.1, commits := kv.2 } : TimelinePoint))
      exact hp.imp fun hab => by simpa using hab
  · by_cases h : commits.length = 0
    · rw [timelineData, if_pos h]
      exact List.nodup_nil
    · rw [timelineData, if_neg h]
      have hperm := (sortBy_perm (fun a b => decide (a.date ≤ b.date))
        ((dayCounts commits).map fun kv =>
          ({ date := kv.1, commits := kv.2 } : TimelinePoint))).map
            fun b => b.date
      rw [hperm.nodup_iff, List.map_map]
      have : ((dayCounts commits).map
          ((fun b : TimelinePoint => b.date) ∘ fun kv =>
            ({ date := kv.1, commits := kv.2 } : TimelinePoint))) =
          (dayCounts commits).map Prod.fst := rfl
      rw [this, dayCounts_keys]
      exact nodup_firstSeen _
  · intro d
    by_cases h : commits.length = 0
    · rw [timelineData, if_pos h]
      simp [List.length_eq_zero.mp h]
    · rw [timelineData, if_neg h]
      have hperm := (sortBy_perm (fun a b => decide (a.date ≤ b.date))
        ((dayCounts commits).map fun kv =>
          ({ date := kv.1, commits := kv.2 } : TimelinePoint))).map
            fun b => b.date
      rw [hperm.mem_iff, List.map_map]
      have : ((dayCounts commits).map
          ((fun b : TimelinePoint => b.date) ∘ fun kv =>
            ({ date := kv.1, commits := kv.2 } : TimelinePoint))) =
          (dayCounts commits).map Prod.fst := rfl
      rw [this, dayCounts_keys, mem_firstSeen]
  · intro h
    have hlen : commits.length = other.length := by
      have := congrArg List.length h
      simpa using this
    by_cases hz : commits.length = 0
    · rw [timelineData, timelineData, if_pos hz, if_pos (hlen ▸ hz)]
    · rw [timelineData, timelineData, if_neg hz, if_neg (hlen ▸ hz),
        dayCounts_eq_of_dates commits other h]

/-- Concrete repository details for id `i`. -/
def exDetails (i : Int) : RepositoryDetails :=
  { id := i, full_name := ("owner/repo") ++ toString i }

/-- C1 counterexample: cycles started for repository 2 and then repository
5, with repository 2 resolving last — the published state ends up holding
repository 2, not repository 5: there is no stale-response guard. -/
theorem stale_fetch_overwrite_cex :
    (runCycles (fun i => .ok (exDetails i)) [2, 5] [5, 2]
        initialRepoViewState).repository = some (exDetails 2) ∧
    exDetails 2 ≠ exDetails 5 := by
  decide

/-- C1 amended: every resolving cycle publishes unconditionally, so after
any sequence of starts the published repository is the one whose response
arrived last — when a superseded cycle resolves after the current one, its
stale data overwrites the newer state. -/
theorem last_arrival_wins (details : Int → RepositoryDetails)
    (starts arrivals : List Int) (last : Int) (init : RepoViewState) :
    (runCycles (fun i => .ok (details i)) starts (arrivals ++ [last])
        init).repository = some (details last) := by
  unfold runCycles
  rw [List.foldl_append]
  rfl

/-- C10: each API client guard rejects blank input locally with a status-400
`ApiError` — the `Except.error` result means `fetchApi` is never reached,
so no HTTP request is issued: a whitespace-only search query, a
whitespace-only owner or repo on the details/contributors/issues/commits
operations, and the falsy id 0 on the by-id lookup. -/
theorem api_blank_input_guards (query owner repo : String) (perPage page : Nat) :
    (query.trim = "" →
      searchRepositories query = .error ⟨("Query parameter is required"), 400⟩) ∧
    (owner.trim = "" ∨ repo.trim = "" →
      getRepositoryDetails owner repo =
        .error ⟨("Owner and repo parameters are required"), 400⟩ ∧
      getRepositoryContributors owner repo perPage page =
        .error ⟨("Owner and repo parameters are required"), 400⟩ ∧
      getRepositoryIssues owner repo =
        .error ⟨("Owner and repo parameters are required"), 400⟩ ∧
      getRepositoryCommits owner repo perPage =
        .error ⟨("Owner and repo parameters are required"), 400⟩) ∧
    getRepositoryById 0 = .error ⟨("Repository ID is required"), 400⟩ := by
  refine ⟨?_, ?_, rfl⟩
  · intro h
    rw [searchRepositories, if_pos h]
  · intro h
    refine ⟨?_, ?_, ?_, ?_⟩
    · rw [getRepositoryDetails, if_pos h]
    · rw [getRepositoryContributors, if_pos h]
    · rw [getRepositoryIssues, if_pos h]
    · rw [getRepositoryCommits, if_pos h]

end RepoSearch
